import Mathlib

set_option autoImplicit false

namespace AegisVM

/-!
Shallow embedding of the AegisVM in-VM SDK (directory `sdk/python/aegis/`):
`workspace.py`, `secrets.py` and `log.py`.  The process environment is
modelled as a total function from variable names to `Option String`
(`os.environ.get` semantics), the filesystem as the set of existing
directory paths plus an abstract writability predicate, and the two
standard streams as lists of written chunks.
-/

/-- An environment: a map from variable names to values, modelled as a total
function returning `none` for unset variables (`os.environ.get`). -/
def Env : Type := String → Option String

/-! ### workspace.py -/

/-- `workspace_path()` from `aegis/workspace.py`.

Python source:
```
env = os.environ.get("AEGIS_WORKSPACE_PATH")
if env:
    return env
if os.path.isdir("/workspace"):
    return "/workspace"
return "./workspace"
```
`environ` models `os.environ`, `isdir` models `os.path.isdir`.  Python
truthiness: `if env:` is taken only when the variable is set to a
non-empty string; `None` and `""` both fall through. -/
def workspace_path (environ : Env) (isdir : String → Bool) : String :=
  match environ "AEGIS_WORKSPACE_PATH" with
  | some s =>
    if s ≠ "" then s
    else if isdir "/workspace" then "/workspace" else "./workspace"
  | none => if isdir "/workspace" then "/workspace" else "./workspace"

/-! ### secrets.py -/

/-- The ASCII apostrophe character (code 39), used inside the
`require_secret` error message. -/
def sq : String := String.singleton (Char.ofNat 39)

/-- The message of the `AegisSecretError` raised by `require_secret`:
`Secret <sq><name><sq> not available. Ensure it is set via <sq>aegis secret
set<sq> and the task/app references it.` where `<sq>` is an apostrophe. -/
def secretErrMsg (name : String) : String :=
  "Secret " ++ sq ++ name ++ sq ++ " not available. " ++
    "Ensure it is set via " ++ sq ++ "aegis secret set" ++ sq ++
    " and the task/app references it."

/-- `get_secret(name)` from `aegis/secrets.py`: `os.environ.get(name)`. -/
def get_secret (environ : Env) (name : String) : Option String :=
  environ name

/-- `require_secret(name)` from `aegis/secrets.py`.  `os.environ[name]`
raising `KeyError` when unset is modelled by the `match`; the raised
`AegisSecretError` is the `.error` case and carries its message string. -/
def require_secret (environ : Env) (name : String) : Except String String :=
  match environ name with
  | some v => Except.ok v
  | none => Except.error (secretErrMsg name)

/-! ### Filesystem model for `ensure_dirs` -/

/-- The filesystem as seen by `workspace.py`: the set of existing directory
paths, plus an abstract predicate saying whether a missing directory can be
created at a path (parent writability and the creation of intermediate
parents by `os.makedirs` are folded into this path-granular predicate). -/
structure FS where
  dirs : List String
  writable : String → Bool

/-- `os.path.join(a, b)` (POSIX), for the one-component joins used by
`workspace.py`: an absolute `b` replaces `a`; otherwise a separator is
inserted unless `a` is empty or already ends with one.  The
`b.startswith("/")` and `a.endswith("/")` probes of `posixpath.join` are
written over the character lists so that concrete instances evaluate. -/
def osPathJoin (a b : String) : String :=
  if b.data.head? = some '/' then b
  else if a = "" ∨ a.data.getLast? = some '/' then a ++ b
  else a ++ "/" ++ b

/-- `os.makedirs(p, exist_ok=...)`: succeeds leaving the filesystem unchanged
when `p` exists and `exist_ok` is set, fails with `FileExistsError` when it
exists and `exist_ok` is not set, creates it when the path is creatable, and
otherwise fails with the underlying error (e.g. `PermissionError`). -/
def makedirs (fs : FS) (p : String) (exist_ok : Bool) : Except String FS :=
  if p ∈ fs.dirs then
    if exist_ok then Except.ok fs else Except.error ("FileExistsError: " ++ p)
  else if fs.writable p then Except.ok { fs with dirs := p :: fs.dirs }
  else Except.error ("PermissionError: " ++ p)

/-- `ensure_dirs()` from `aegis/workspace.py`: resolve the root, then
`os.makedirs(join(root, sub), exist_ok=True)` for `data`, `output` and
`.cache` in that order; any error propagates (no `try` in the source). -/
def ensure_dirs (environ : Env) (fs : FS) : Except String FS :=
  let root := workspace_path environ (fun p => decide (p ∈ fs.dirs))
  match makedirs fs (osPathJoin root "data") true with
  | Except.error e => Except.error e
  | Except.ok fs1 =>
    match makedirs fs1 (osPathJoin root "output") true with
    | Except.error e => Except.error e
    | Except.ok fs2 => makedirs fs2 (osPathJoin root ".cache") true

/-- A successful `makedirs` with `exist_ok` keeps the writability predicate,
contains the requested path, and adds nothing but that path. -/
theorem makedirs_ok_spec (fs fs' : FS) (p : String)
    (h : makedirs fs p true = Except.ok fs') :
    fs'.writable = fs.writable ∧ p ∈ fs'.dirs ∧
      ∀ q, q ∈ fs'.dirs ↔ q = p ∨ q ∈ fs.dirs := by
  by_cases h1 : p ∈ fs.dirs
  · simp only [makedirs, h1, if_true, if_pos, Except.ok.injEq] at h
    subst h
    exact ⟨rfl, h1, fun q => by
      constructor
      · exact fun hq => Or.inr hq
      · rintro (rfl | hq) <;> assumption⟩
  · simp only [makedirs, h1, if_false, if_neg, not_false_iff] at h
    by_cases h2 : fs.writable p
    · simp only [h2, if_true, Except.ok.injEq] at h
      subst h
      exact ⟨rfl, List.mem_cons_self _ _, fun q => by simp [List.mem_cons]⟩
    · simp [h2] at h

/-- `makedirs` on an existing path with `exist_ok` is the identity. -/
theorem makedirs_mem_self_ok (fs : FS) (p : String) (h : p ∈ fs.dirs) :
    makedirs fs p true = Except.ok fs := by
  simp [makedirs, h]

/-- Structure of a successful `ensure_dirs` run: writability is unchanged,
the three subdirectory paths under the resolved root are present afterwards,
and every directory afterwards is either one of those three or was already
present. -/
theorem ensure_dirs_ok_spec (environ : Env) (fs fs' : FS)
    (h : ensure_dirs environ fs = Except.ok fs') :
    fs'.writable = fs.writable ∧
    osPathJoin (workspace_path environ (fun p => decide (p ∈ fs.dirs))) "data"
      ∈ fs'.dirs ∧
    osPathJoin (workspace_path environ (fun p => decide (p ∈ fs.dirs))) "output"
      ∈ fs'.dirs ∧
    osPathJoin (workspace_path environ (fun p => decide (p ∈ fs.dirs))) ".cache"
      ∈ fs'.dirs ∧
    ∀ q, q ∈ fs'.dirs ↔
      q = osPathJoin (workspace_path environ (fun p => decide (p ∈ fs.dirs)))
            "data" ∨
      q = osPathJoin (workspace_path environ (fun p => decide (p ∈ fs.dirs)))
            "output" ∨
      q = osPathJoin (workspace_path environ (fun p => decide (p ∈ fs.dirs)))
            ".cache" ∨
      q ∈ fs.dirs := by
  simp only [ensure_dirs] at h
  set r := workspace_path environ (fun p => decide (p ∈ fs.dirs)) with hr
  split at h
  · cases h
  rename_i fs1 h1
  split at h
  · cases h
  rename_i fs2 h2
  obtain ⟨hw1, hm1, hs1⟩ := makedirs_ok_spec _ _ _ h1
  obtain ⟨hw2, hm2, hs2⟩ := makedirs_ok_spec _ _ _ h2
  obtain ⟨hw3, hm3, hs3⟩ := makedirs_ok_spec _ _ _ h
  refine ⟨by rw [hw3, hw2, hw1], ?_, ?_, hm3, ?_⟩
  · exact (hs3 _).2 (Or.inr ((hs2 _).2 (Or.inr hm1)))
  · exact (hs3 _).2 (Or.inr hm2)
  · intro q
    rw [hs3 q, hs2 q, hs1 q]
    tauto

/-- The resolved root does not change across a successful `ensure_dirs` run:
the only probed path is `/workspace`, and none of the three created
subdirectory paths equals it. -/
theorem workspace_path_stable (environ : Env) (fs fs' : FS)
    (h : ensure_dirs environ fs = Except.ok fs') :
    workspace_path environ (fun p => decide (p ∈ fs'.dirs)) =
      workspace_path environ (fun p => decide (p ∈ fs.dirs)) := by
  obtain ⟨-, -, -, -, hall⟩ := ensure_dirs_ok_spec environ fs fs' h
  rcases henv : environ "AEGIS_WORKSPACE_PATH" with - | s
  · by_cases hin : "/workspace" ∈ fs.dirs
    · have hin' : "/workspace" ∈ fs'.dirs := (hall _).2 (Or.inr (Or.inr (Or.inr hin)))
      simp [workspace_path, henv, hin, hin']
    · have hr : workspace_path environ (fun p => decide (p ∈ fs.dirs)) =
          "./workspace" := by simp [workspace_path, henv, hin]
      have hin' : "/workspace" ∉ fs'.dirs := by
        intro hx
        rcases (hall _).1 hx with hq | hq | hq | hq
        · rw [hr] at hq; exact absurd hq (by decide)
        · rw [hr] at hq; exact absurd hq (by decide)
        · rw [hr] at hq; exact absurd hq (by decide)
        · exact hin hq
      simp [workspace_path, henv, hin, hin']
  · by_cases hs : s = ""
    · subst hs
      by_cases hin : "/workspace" ∈ fs.dirs
      · have hin' : "/workspace" ∈ fs'.dirs := (hall _).2 (Or.inr (Or.inr (Or.inr hin)))
        simp [workspace_path, henv, hin, hin']
      · have hr : workspace_path environ (fun p => decide (p ∈ fs.dirs)) =
            "./workspace" := by simp [workspace_path, henv, hin]
        have hin' : "/workspace" ∉ fs'.dirs := by
          intro hx
          rcases (hall _).1 hx with hq | hq | hq | hq
          · rw [hr] at hq; exact absurd hq (by decide)
          · rw [hr] at hq; exact absurd hq (by decide)
          · rw [hr] at hq; exact absurd hq (by decide)
          · exact hin hq
        simp [workspace_path, henv, hin, hin']
    · simp [workspace_path, henv, hs]

/-- Claim C5: `ensure_dirs` is idempotent: a second invocation against the
same resolved root succeeds without change (pre-existing directories never
make it fail), after a successful run exactly the three subdirectories
`data`, `output` and `.cache` under the resolved root are present (nothing
else was created), and any underlying `makedirs` failure at any of the three
steps propagates verbatim as the result. -/
theorem C5_ensure_dirs_idempotent (environ : Env) (fs : FS) :
    (∀ fs', ensure_dirs environ fs = Except.ok fs' →
      ensure_dirs environ fs' = Except.ok fs' ∧
      osPathJoin (workspace_path environ (fun p => decide (p ∈ fs.dirs)))
          "data" ∈ fs'.dirs ∧
      osPathJoin (workspace_path environ (fun p => decide (p ∈ fs.dirs)))
          "output" ∈ fs'.dirs ∧
      osPathJoin (workspace_path environ (fun p => decide (p ∈ fs.dirs)))
          ".cache" ∈ fs'.dirs ∧
      (∀ q, q ∈ fs'.dirs → q ∈ fs.dirs ∨
        q = osPathJoin (workspace_path environ (fun p => decide (p ∈ fs.dirs)))
              "data" ∨
        q = osPathJoin (workspace_path environ (fun p => decide (p ∈ fs.dirs)))
              "output" ∨
        q = osPathJoin (workspace_path environ (fun p => decide (p ∈ fs.dirs)))
              ".cache")) ∧
    (∀ e, makedirs fs
        (osPathJoin (workspace_path environ (fun p => decide (p ∈ fs.dirs)))
          "data") true = Except.error e →
      ensure_dirs environ fs = Except.error e) ∧
    (∀ e fs1, makedirs fs
        (osPathJoin (workspace_path environ (fun p => decide (p ∈ fs.dirs)))
          "data") true = Except.ok fs1 →
      makedirs fs1
        (osPathJoin (workspace_path environ (fun p => decide (p ∈ fs.dirs)))
          "output") true = Except.error e →
      ensure_dirs environ fs = Except.error e) ∧
    (∀ e fs1 fs2, makedirs fs
        (osPathJoin (workspace_path environ (fun p => decide (p ∈ fs.dirs)))
          "data") true = Except.ok fs1 →
      makedirs fs1
        (osPathJoin (workspace_path environ (fun p => decide (p ∈ fs.dirs)))
          "output") true = Except.ok fs2 →
      makedirs fs2
        (osPathJoin (workspace_path environ (fun p => decide (p ∈ fs.dirs)))
          ".cache") true = Except.error e →
      ensure_dirs environ fs = Except.error e) := by
  refine ⟨?_, ?_, ?_, ?_⟩
  · intro fs' h
    obtain ⟨hw, hm1, hm2, hm3, hall⟩ := ensure_dirs_ok_spec environ fs fs' h
    have hroot := workspace_path_stable environ fs fs' h
    refine ⟨?_, hm1, hm2, hm3, fun q hq => by have := (hall q).1 hq; tauto⟩
    simp only [ensure_dirs, hroot, makedirs_mem_self_ok fs' _ hm1,
      makedirs_mem_self_ok fs' _ hm2, makedirs_mem_self_ok fs' _ hm3]
  · intro e h1
    simp only [ensure_dirs, h1]
  · intro e fs1 h1 h2
    simp only [ensure_dirs, h1, h2]
  · intro e fs1 fs2 h1 h2 h3
    simp only [ensure_dirs, h1, h2, h3]

/-- Witness for C5: with no override, `/workspace` absent and an empty
writable filesystem, a first `ensure_dirs` run creates the three
subdirectories under `./workspace`, and a second run on the result succeeds
returning it unchanged. -/
theorem C5_ensure_dirs_idempotent_witness :
    ensure_dirs (fun _ => none)
        ⟨["./workspace/.cache", "./workspace/output", "./workspace/data"],
          fun _ => true⟩ =
      Except.ok
        ⟨["./workspace/.cache", "./workspace/output", "./workspace/data"],
          fun _ => true⟩ := by
  have h := (C5_ensure_dirs_idempotent (fun _ => none)
      ⟨[], fun _ => true⟩).1
      ⟨["./workspace/.cache", "./workspace/output", "./workspace/data"],
        fun _ => true⟩ rfl
  exact h.1

/-! ### log.py -/

/-- A Python value passed as a keyword extra to a log call: one of the
JSON-serializable primitives (string, integer, boolean), or an object that
`json.dumps` cannot serialize (`obj`). -/
inductive PyValue where
  | str (s : String)
  | int (n : Int)
  | bool (b : Bool)
  | obj
deriving DecidableEq

/-- The decimal digit character for `n % 10`. -/
def digitChar (n : Nat) : Char :=
  match n % 10 with
  | 0 => '0' | 1 => '1' | 2 => '2' | 3 => '3' | 4 => '4'
  | 5 => '5' | 6 => '6' | 7 => '7' | 8 => '8' | _ => '9'

/-- Decimal digits of `n`, most significant first, accumulated into `acc`;
structural recursion on a fuel argument so that concrete instances
evaluate.  `natRepr` always supplies enough fuel. -/
def natDigitsAux : Nat → Nat → List Char → List Char
  | 0, _, acc => acc
  | fuel + 1, n, acc =>
    if n < 10 then digitChar n :: acc
    else natDigitsAux fuel (n / 10) (digitChar n :: acc)

/-- The decimal representation of a natural number (`repr` of a Python
non-negative int). -/
def natRepr (n : Nat) : String := ⟨natDigitsAux (n + 1) n []⟩

/-- The decimal representation of an integer (`repr` of a Python int), as
serialized by `json.dumps`. -/
def intRepr (n : Int) : String :=
  match n with
  | Int.ofNat m => natRepr m
  | Int.negSucc m => "-" ++ natRepr (m + 1)

/-- The lowercase hex digit character for `n % 16`. -/
def hexDigit (n : Nat) : Char :=
  match n % 16 with
  | 0 => '0' | 1 => '1' | 2 => '2' | 3 => '3' | 4 => '4'
  | 5 => '5' | 6 => '6' | 7 => '7' | 8 => '8' | 9 => '9'
  | 10 => 'a' | 11 => 'b' | 12 => 'c' | 13 => 'd' | 14 => 'e' | _ => 'f'

/-- How `json.dumps(..., ensure_ascii=False)` renders one character inside a
string: `"` and `\` are backslash-escaped, the control characters with
shorthands use them (`\b \t \n \f \r`), other control characters below
U+0020 become `\u00XX`, and every other character is emitted as itself. -/
def jsonEscapeChar (c : Char) : List Char :=
  if c = '"' then ['\\', '"']
  else if c = '\\' then ['\\', '\\']
  else if c = '\n' then ['\\', 'n']
  else if c = '\t' then ['\\', 't']
  else if c = '\r' then ['\\', 'r']
  else if c.toNat = 8 then ['\\', 'b']
  else if c.toNat = 12 then ['\\', 'f']
  else if c.toNat < 32 then
    ['\\', 'u', '0', '0', hexDigit (c.toNat / 16), hexDigit (c.toNat % 16)]
  else [c]

/-- `json.dumps` escaping applied to a whole string. -/
def jsonEscape (s : String) : String :=
  ⟨(s.data.map jsonEscapeChar).flatten⟩

/-- A JSON string literal: the escaped text between double quotes. -/
def quoteStr (s : String) : String := "\"" ++ jsonEscape s ++ "\""

/-- `json.dumps` of a single primitive value; `obj` raises `TypeError`. -/
def dumpsValue : PyValue → Except String String
  | PyValue.str s => Except.ok (quoteStr s)
  | PyValue.int n => Except.ok (intRepr n)
  | PyValue.bool b => Except.ok (if b then "true" else "false")
  | PyValue.obj => Except.error "TypeError: Object is not JSON serializable"

/-- Serialize each record entry to `"key": value`, left to right, failing at
the first non-serializable value exactly as `json.dumps` does. -/
def dumpsPairs : List (String × PyValue) → Except String (List String)
  | [] => Except.ok []
  | kv :: rest =>
    match dumpsValue kv.2 with
    | Except.error e => Except.error e
    | Except.ok v =>
      match dumpsPairs rest with
      | Except.error e => Except.error e
      | Except.ok vs => Except.ok ((quoteStr kv.1 ++ ": " ++ v) :: vs)

/-- `", ".join(items)` with a general separator. -/
def joinSep (sep : String) : List String → String
  | [] => ""
  | [x] => x
  | x :: y :: rest => x ++ sep ++ joinSep sep (y :: rest)

/-- The opening brace character, as a string. -/
def lbrace : String := "\x7b"

/-- The closing brace character, as a string. -/
def rbrace : String := "\x7d"

/-- `json.dumps(record, ensure_ascii=False)` for a flat dict with the
default separators: items joined by a comma and a space, a colon and a
space after each key. -/
def dumps (record : List (String × PyValue)) : Except String String :=
  match dumpsPairs record with
  | Except.error e => Except.error e
  | Except.ok items => Except.ok (lbrace ++ joinSep ", " items ++ rbrace)

/-- One step of `dict.update`: assign the value at the key, keeping the
key's existing position when it is already present and appending the entry
otherwise (CPython insertion-order dict semantics). -/
def dictUpdate (d : List (String × PyValue)) (kv : String × PyValue) :
    List (String × PyValue) :=
  if kv.1 ∈ d.map Prod.fst then
    d.map (fun p => if p.1 = kv.1 then (p.1, kv.2) else p)
  else d ++ [kv]

/-- Lookup in an insertion-ordered dict. -/
def assocLookup (k : String) : List (String × PyValue) → Option PyValue
  | [] => none
  | p :: rest => if p.1 = k then some p.2 else assocLookup k rest

/-- The record dict built by `_emit`: the literal
`{"level": ..., "msg": ..., "ts": ...}` followed by `record.update(kwargs)`
applied entry by entry in call order. -/
def buildRecord (level msg ts : String)
    (extras : List (String × PyValue)) : List (String × PyValue) :=
  extras.foldl dictUpdate
    [("level", PyValue.str level), ("msg", PyValue.str msg),
     ("ts", PyValue.str ts)]

/-- The broken-down UTC time returned by `datetime.now(timezone.utc)`. -/
structure UTCTime where
  year : Nat
  month : Nat
  day : Nat
  hour : Nat
  minute : Nat
  second : Nat
  microsecond : Nat

/-- `n` zero-padded on the left to width `w`. -/
def padNum (w n : Nat) : String :=
  ⟨List.replicate (w - (natDigitsAux (n + 1) n []).length) '0' ++
    natDigitsAux (n + 1) n []⟩

/-- `datetime.isoformat()` on an aware UTC datetime with the default
`timespec="auto"`: `YYYY-MM-DDTHH:MM:SS[.ffffff]+00:00`, where the
fractional part is included only when `microsecond` is nonzero. -/
def isoformat (t : UTCTime) : String :=
  padNum 4 t.year ++ "-" ++ padNum 2 t.month ++ "-" ++ padNum 2 t.day ++
    "T" ++ padNum 2 t.hour ++ ":" ++ padNum 2 t.minute ++ ":" ++
    padNum 2 t.second ++
    (if t.microsecond = 0 then "" else "." ++ padNum 6 t.microsecond) ++
    "+00:00"

/-- The two standard streams; each successful `write` call appends exactly
one chunk to one of them. -/
structure Streams where
  out : List String
  err : List String
deriving DecidableEq

/-- Which stream a log function hands to `_emit`. -/
inductive StreamId where
  | out
  | err
deriving DecidableEq

/-- `stream.write(s)`: append one chunk to the chosen stream. -/
def writeChunk (st : Streams) (sid : StreamId) (s : String) : Streams :=
  match sid with
  | StreamId.out => { st with out := st.out ++ [s] }
  | StreamId.err => { st with err := st.err ++ [s] }

/-- `_emit(stream, level, msg, **kwargs)` from `aegis/log.py`: build the
record dict, merge the kwargs, then
`stream.write(json.dumps(record, ensure_ascii=False) + "\n")`.
`json.dumps` is evaluated before `write` is called, so when serialization
raises, nothing at all is written: the streams come back unchanged together
with the raised error. -/
def _emit (now : UTCTime) (sid : StreamId) (level msg : String)
    (extras : List (String × PyValue)) (st : Streams) :
    Streams × Option String :=
  match dumps (buildRecord level msg (isoformat now) extras) with
  | Except.error e => (st, some e)
  | Except.ok line => (writeChunk st sid (line ++ "\n"), none)

/-- `log.info`: JSON record to stdout at level `info`. -/
def info (now : UTCTime) (msg : String) (extras : List (String × PyValue))
    (st : Streams) : Streams × Option String :=
  _emit now StreamId.out "info" msg extras st

/-- `log.warn`: JSON record to stdout at level `warn`. -/
def warn (now : UTCTime) (msg : String) (extras : List (String × PyValue))
    (st : Streams) : Streams × Option String :=
  _emit now StreamId.out "warn" msg extras st

/-- `log.error`: JSON record to stderr at level `error`. -/
def error (now : UTCTime) (msg : String) (extras : List (String × PyValue))
    (st : Streams) : Streams × Option String :=
  _emit now StreamId.err "error" msg extras st

/-- `log.debug`: JSON record to stdout at level `debug`. -/
def debug (now : UTCTime) (msg : String) (extras : List (String × PyValue))
    (st : Streams) : Streams × Option String :=
  _emit now StreamId.out "debug" msg extras st

/-! ### Dict lemmas -/

/-- Replacing the value at a key keeps the key sequence. -/
theorem map_fst_update (d : List (String × PyValue)) (k : String)
    (v : PyValue) :
    (d.map (fun p => if p.1 = k then (p.1, v) else p)).map Prod.fst =
      d.map Prod.fst := by
  induction d with
  | nil => rfl
  | cons p rest ih => by_cases h : p.1 = k <;> simp [h, ih]

/-- Key sequence after one `dict.update` step: unchanged when the key is
present, extended at the end when it is new. -/
theorem dictUpdate_keys (d : List (String × PyValue)) (kv : String × PyValue) :
    (dictUpdate d kv).map Prod.fst =
      if kv.1 ∈ d.map Prod.fst then d.map Prod.fst
      else d.map Prod.fst ++ [kv.1] := by
  unfold dictUpdate
  by_cases h : kv.1 ∈ d.map Prod.fst
  · rw [if_pos h, if_pos h, map_fst_update]
  · rw [if_neg h, if_neg h]; simp

theorem assocLookup_replace (d : List (String × PyValue)) (k : String)
    (v : PyValue) (h : k ∈ d.map Prod.fst) :
    assocLookup k (d.map (fun p => if p.1 = k then (p.1, v) else p)) =
      some v := by
  induction d with
  | nil => simp at h
  | cons p rest ih =>
    by_cases hp : p.1 = k
    · simp [assocLookup, hp]
    · have hmem : k ∈ rest.map Prod.fst := by
        simp only [List.map_cons, List.mem_cons] at h
        rcases h with he | hm
        · exact absurd he.symm hp
        · exact hm
      simp [assocLookup, hp, ih hmem]

theorem assocLookup_append_self (d : List (String × PyValue)) (k : String)
    (v : PyValue) (h : k ∉ d.map Prod.fst) :
    assocLookup k (d ++ [(k, v)]) = some v := by
  induction d with
  | nil => simp [assocLookup]
  | cons p rest ih =>
    have hp : ¬(p.1 = k) := fun he => h (by simp [he])
    have hr : k ∉ rest.map Prod.fst := fun hm => h (by simp [hm])
    simp [assocLookup, hp, ih hr]

/-- After `dict.update` with `(k, v)`, looking up `k` yields `v`. -/
theorem assocLookup_update_self (d : List (String × PyValue)) (k : String)
    (v : PyValue) :
    assocLookup k (dictUpdate d (k, v)) = some v := by
  unfold dictUpdate
  by_cases h : k ∈ d.map Prod.fst
  · simpa [h] using assocLookup_replace d k v h
  · simpa [h] using assocLookup_append_self d k v h

theorem assocLookup_map_other (d : List (String × PyValue))
    (kv : String × PyValue) (k : String) (h : ¬(k = kv.1)) :
    assocLookup k (d.map (fun p => if p.1 = kv.1 then (p.1, kv.2) else p)) =
      assocLookup k d := by
  induction d with
  | nil => rfl
  | cons p rest ih =>
    have hne : ¬(kv.1 = k) := fun he => h he.symm
    by_cases hp : p.1 = kv.1
    · simp [assocLookup, hp, hne, ih]
    · by_cases hpk : p.1 = k <;> simp [assocLookup, hp, hpk, h, hne, ih]

theorem assocLookup_append_other (d : List (String × PyValue))
    (kv : String × PyValue) (k : String) (h : ¬(k = kv.1)) :
    assocLookup k (d ++ [kv]) = assocLookup k d := by
  induction d with
  | nil =>
    have hne : ¬(kv.1 = k) := fun he => h he.symm
    simp [assocLookup, hne]
  | cons p rest ih =>
    by_cases hp : p.1 = k <;> simp [assocLookup, hp, ih]

/-- A `dict.update` step at a different key leaves a lookup unchanged. -/
theorem assocLookup_update_other (d : List (String × PyValue))
    (kv : String × PyValue) (k : String) (h : ¬(k = kv.1)) :
    assocLookup k (dictUpdate d kv) = assocLookup k d := by
  unfold dictUpdate
  by_cases hm : kv.1 ∈ d.map Prod.fst
  · simpa [hm] using assocLookup_map_other d kv k h
  · simpa [hm] using assocLookup_append_other d kv k h

/-- Folding updates whose keys avoid `k` leaves the lookup at `k` alone. -/
theorem foldl_update_not_mem (extras : List (String × PyValue)) :
    ∀ d k, k ∉ extras.map Prod.fst →
      assocLookup k (extras.foldl dictUpdate d) = assocLookup k d := by
  induction extras with
  | nil => intro d k _; rfl
  | cons kv rest ih =>
    intro d k h
    have hk : ¬(k = kv.1) := fun he => h (by simp [he])
    have hr : k ∉ rest.map Prod.fst := fun hm => h (by simp [hm])
    rw [List.foldl_cons, ih _ k hr, assocLookup_update_other d kv k hk]

/-- With pairwise-distinct keys (Python kwargs), every updated entry is
found with its caller-supplied value. -/
theorem foldl_update_mem (extras : List (String × PyValue)) :
    ∀ d k v, (extras.map Prod.fst).Nodup → (k, v) ∈ extras →
      assocLookup k (extras.foldl dictUpdate d) = some v := by
  induction extras with
  | nil => intro d k v _ h; cases h
  | cons kv rest ih =>
    intro d k v hnd h
    rw [List.map_cons] at hnd
    obtain ⟨h1, hnr⟩ := List.nodup_cons.1 hnd
    rcases List.mem_cons.1 h with he | hm
    · have hk : k ∉ rest.map Prod.fst := by
        rw [← he] at h1; simpa using h1
      rw [List.foldl_cons, foldl_update_not_mem rest _ k hk, ← he]
      exact assocLookup_update_self d k v
    · rw [List.foldl_cons]
      exact ih _ k v hnr hm

/-- Key order after merging kwargs with distinct keys: the base keys keep
their positions, new keys follow in call order. -/
theorem foldl_update_keys (extras : List (String × PyValue)) :
    ∀ d, (extras.map Prod.fst).Nodup →
      (extras.foldl dictUpdate d).map Prod.fst =
        d.map Prod.fst ++ (extras.map Prod.fst).filter
          (fun k => decide (k ∉ d.map Prod.fst)) := by
  induction extras with
  | nil => intro d _; simp
  | cons kv rest ih =>
    intro d hnd
    rw [List.map_cons] at hnd
    obtain ⟨h1, hnr⟩ := List.nodup_cons.1 hnd
    rw [List.foldl_cons]
    rw [ih (dictUpdate d kv) hnr]
    simp only [dictUpdate_keys]
    by_cases hm : kv.1 ∈ d.map Prod.fst
    · simp only [if_pos hm, List.map_cons, List.filter_cons]
      simp [hm]
    · simp only [if_neg hm, List.map_cons, List.filter_cons]
      have hcong : (rest.map Prod.fst).filter
            (fun k => !decide (k ∈ d.map Prod.fst ++ [kv.1])) =
          (rest.map Prod.fst).filter (fun k => !decide (k ∈ d.map Prod.fst)) := by
        apply List.filter_congr
        intro a ha
        have hne : ¬(a = kv.1) := fun he => h1 (he ▸ ha)
        simp [List.mem_append, hne]
      simp [hcong, hm, List.append_assoc]

/-- Values in an updated dict come from the base dict or the updates. -/
theorem dictUpdate_values (d : List (String × PyValue))
    (kv : String × PyValue) :
    ∀ p ∈ dictUpdate d kv, p.2 = kv.2 ∨ ∃ q ∈ d, p.2 = q.2 := by
  intro p hp
  unfold dictUpdate at hp
  by_cases hm : kv.1 ∈ d.map Prod.fst
  · rw [if_pos hm] at hp
    rcases List.mem_map.1 hp with ⟨q, hq, he⟩
    by_cases hqk : q.1 = kv.1
    · left; rw [← he]; simp [hqk]
    · right; exact ⟨q, hq, by rw [← he]; simp [hqk]⟩
  · rw [if_neg hm] at hp
    rcases List.mem_append.1 hp with hq | hq
    · right; exact ⟨p, hq, rfl⟩
    · left
      have : p = kv := by simpa using hq
      rw [this]

/-- Values of a merged record come from the base record or the extras. -/
theorem foldl_update_values (extras : List (String × PyValue)) :
    ∀ d p, p ∈ extras.foldl dictUpdate d →
      (∃ q ∈ d, p.2 = q.2) ∨ (∃ q ∈ extras, p.2 = q.2) := by
  induction extras with
  | nil => intro d p hp; left; exact ⟨p, hp, rfl⟩
  | cons kv rest ih =>
    intro d p hp
    rw [List.foldl_cons] at hp
    rcases ih (dictUpdate d kv) p hp with ⟨q, hq, he⟩ | ⟨q, hq, he⟩
    · rcases dictUpdate_values d kv q hq with h2 | ⟨q2, hq2, he2⟩
      · right; exact ⟨kv, List.mem_cons_self _ _, he.trans h2⟩
      · left; exact ⟨q2, hq2, he.trans he2⟩
    · right; exact ⟨q, List.mem_cons_of_mem _ hq, he⟩

/-- A successful lookup exhibits a member of the dict. -/
theorem assocLookup_mem (d : List (String × PyValue)) :
    ∀ k v, assocLookup k d = some v → (k, v) ∈ d := by
  induction d with
  | nil => intro k v h; cases h
  | cons p rest ih =>
    intro k v h
    by_cases hp : p.1 = k
    · simp only [assocLookup, if_pos hp] at h
      have hpv : p = (k, v) := by
        obtain ⟨a, b⟩ := p
        simp only at hp
        obtain rfl := hp
        simpa using h
      rw [← hpv]
      exact List.mem_cons_self _ _
    · simp only [assocLookup, if_neg hp] at h
      exact List.mem_cons_of_mem _ (ih k v h)

/-- Claim C2: when a log call's extras contain a reserved key (`level`,
`msg` or `ts`) and the extras have pairwise-distinct keys (as Python
kwargs do), the record is built with no error: the caller-supplied value
replaces the reserved value in place, and the record's keys are `level`,
`msg`, `ts` — the colliding extras occupying those reserved slots — followed
by the remaining extras in call order. -/
theorem C2_record_collision (level msg ts : String)
    (extras : List (String × PyValue))
    (hnd : (extras.map Prod.fst).Nodup)
    (_hcol : ∃ kv ∈ extras, kv.1 = "level" ∨ kv.1 = "msg" ∨ kv.1 = "ts") :
    (∀ kv ∈ extras,
      assocLookup kv.1 (buildRecord level msg ts extras) = some kv.2) ∧
    (buildRecord level msg ts extras).map Prod.fst =
      ["level", "msg", "ts"] ++ (extras.map Prod.fst).filter
        (fun k => decide (k ∉ (["level", "msg", "ts"] : List String))) := by
  constructor
  · intro kv hkv
    exact foldl_update_mem extras _ kv.1 kv.2 hnd hkv
  · exact foldl_update_keys extras _ hnd

/-- Witness for C2: a call overriding `level` and adding `status` yields a
record whose `level` value is the caller's and whose keys are the reserved
three followed by `status`. -/
theorem C2_record_collision_witness :
    assocLookup "level"
        (buildRecord "info" "m" "T"
          [("level", PyValue.str "x"), ("status", PyValue.int 200)]) =
      some (PyValue.str "x") ∧
    (buildRecord "info" "m" "T"
        [("level", PyValue.str "x"), ("status", PyValue.int 200)]).map
      Prod.fst = ["level", "msg", "ts", "status"] := by
  have h := C2_record_collision "info" "m" "T"
    [("level", PyValue.str "x"), ("status", PyValue.int 200)]
    (by decide) ⟨("level", PyValue.str "x"), by simp, Or.inl rfl⟩
  constructor
  · exact h.1 ("level", PyValue.str "x") (by simp)
  · rw [h.2]; rfl

/-! ### Stream lemmas -/

/-- `_emit` either writes nothing (serialization failed) or appends exactly
one chunk to its designated stream. -/
theorem emit_stream_cases (now : UTCTime) (sid : StreamId)
    (level msg : String) (extras : List (String × PyValue)) (st : Streams) :
    (_emit now sid level msg extras st).1 = st ∨
    ∃ line, (_emit now sid level msg extras st).1 = writeChunk st sid line := by
  cases h : dumps (buildRecord level msg (isoformat now) extras) with
  | error e => left; simp [_emit, h]
  | ok line => right; exact ⟨line ++ "\n", by simp [_emit, h]⟩

/-- An `_emit` to stdout leaves stderr untouched. -/
theorem emit_out_preserves_err (now : UTCTime) (level msg : String)
    (extras : List (String × PyValue)) (st : Streams) :
    (_emit now StreamId.out level msg extras st).1.err = st.err := by
  rcases emit_stream_cases now StreamId.out level msg extras st with h | ⟨line, h⟩ <;>
    simp [h, writeChunk]

/-- An `_emit` to stderr leaves stdout untouched. -/
theorem emit_err_preserves_out (now : UTCTime) (level msg : String)
    (extras : List (String × PyValue)) (st : Streams) :
    (_emit now StreamId.err level msg extras st).1.out = st.out := by
  rcases emit_stream_cases now StreamId.err level msg extras st with h | ⟨line, h⟩ <;>
    simp [h, writeChunk]

/-- An `_emit` to stdout only ever appends there. -/
theorem emit_out_appends (now : UTCTime) (level msg : String)
    (extras : List (String × PyValue)) (st : Streams) :
    ∃ t, (_emit now StreamId.out level msg extras st).1.out = st.out ++ t := by
  rcases emit_stream_cases now StreamId.out level msg extras st with h | ⟨line, h⟩
  · exact ⟨[], by simp [h]⟩
  · exact ⟨[line], by simp [h, writeChunk]⟩

/-- An `_emit` to stderr only ever appends there. -/
theorem emit_err_appends (now : UTCTime) (level msg : String)
    (extras : List (String × PyValue)) (st : Streams) :
    ∃ t, (_emit now StreamId.err level msg extras st).1.err = st.err ++ t := by
  rcases emit_stream_cases now StreamId.err level msg extras st with h | ⟨line, h⟩
  · exact ⟨[], by simp [h]⟩
  · exact ⟨[line], by simp [h, writeChunk]⟩

/-- Counterexample to claim C4 as stated: a call to `error` whose extras
override the `level` key writes a record whose `level` field is the
caller's value `info`, not the name `error` of the function called. -/
theorem C4_counterexample :
    error ⟨2024, 1, 1, 0, 0, 0, 0⟩ "m" [("level", PyValue.str "info")]
        ⟨[], []⟩ =
      (⟨[],
        ["\x7b\"level\": \"info\", \"msg\": \"m\", \"ts\": \"2024-01-01T00:00:00+00:00\"\x7d\n"]⟩,
      none) ∧
    assocLookup "level"
        (buildRecord "error" "m" (isoformat ⟨2024, 1, 1, 0, 0, 0, 0⟩)
          [("level", PyValue.str "info")]) = some (PyValue.str "info") ∧
    ¬("info" = "error") := by
  refine ⟨by decide, by decide, by decide⟩

/-- Claim C4 (amended): debug, info and warn write only to the standard
output stream and never touch stderr; error writes only to stderr and never
touches stdout — for every call.  The emitted `level` field equals the name
of the function called for every call whose extras do not themselves carry
a `level` key (the unamended universal statement fails on such overriding
calls, see the counterexample). -/
theorem C4_streams_and_level (now : UTCTime) (msg : String)
    (extras : List (String × PyValue)) (st : Streams) :
    ((info now msg extras st).1.err = st.err ∧
     (warn now msg extras st).1.err = st.err ∧
     (debug now msg extras st).1.err = st.err ∧
     (error now msg extras st).1.out = st.out) ∧
    ((∃ t, (info now msg extras st).1.out = st.out ++ t) ∧
     (∃ t, (warn now msg extras st).1.out = st.out ++ t) ∧
     (∃ t, (debug now msg extras st).1.out = st.out ++ t) ∧
     (∃ t, (error now msg extras st).1.err = st.err ++ t)) ∧
    ("level" ∉ extras.map Prod.fst →
      assocLookup "level" (buildRecord "info" msg (isoformat now) extras) =
        some (PyValue.str "info") ∧
      assocLookup "level" (buildRecord "warn" msg (isoformat now) extras) =
        some (PyValue.str "warn") ∧
      assocLookup "level" (buildRecord "debug" msg (isoformat now) extras) =
        some (PyValue.str "debug") ∧
      assocLookup "level" (buildRecord "error" msg (isoformat now) extras) =
        some (PyValue.str "error")) := by
  refine ⟨⟨emit_out_preserves_err now "info" msg extras st,
      emit_out_preserves_err now "warn" msg extras st,
      emit_out_preserves_err now "debug" msg extras st,
      emit_err_preserves_out now "error" msg extras st⟩,
    ⟨emit_out_appends now "info" msg extras st,
      emit_out_appends now "warn" msg extras st,
      emit_out_appends now "debug" msg extras st,
      emit_err_appends now "error" msg extras st⟩, ?_⟩
  intro h
  refine ⟨?_, ?_, ?_, ?_⟩ <;>
  · unfold buildRecord
    rw [foldl_update_not_mem extras _ "level" h]
    simp [assocLookup]

/-- Witness for C4 (amended): a concrete `info` call with no extras leaves
stderr empty and emits level `info`. -/
theorem C4_streams_and_level_witness :
    (info ⟨2024, 1, 1, 0, 0, 0, 1⟩ "m" [] ⟨[], []⟩).1.err = [] ∧
    assocLookup "level"
        (buildRecord "info" "m" (isoformat ⟨2024, 1, 1, 0, 0, 0, 1⟩) []) =
      some (PyValue.str "info") := by
  have h := C4_streams_and_level ⟨2024, 1, 1, 0, 0, 0, 1⟩ "m" [] ⟨[], []⟩
  exact ⟨h.1.1, (h.2.2 (by simp)).1⟩

/-! ### Serialization lemmas: the emitted text never contains a raw newline -/

/-- `digitChar` always yields a decimal digit character. -/
theorem digitChar_mem (n : Nat) :
    digitChar n ∈
      (['0', '1', '2', '3', '4', '5', '6', '7', '8', '9'] : List Char) := by
  unfold digitChar
  split <;> decide

/-- `hexDigit` never yields a newline. -/
theorem hexDigit_ne_nl (n : Nat) : ¬(hexDigit n = '\n') := by
  unfold hexDigit
  split <;> decide

/-- All characters produced by the digit accumulator are digits or come
from the accumulator. -/
theorem natDigitsAux_mem (fuel : Nat) :
    ∀ n acc c, c ∈ natDigitsAux fuel n acc →
      c ∈ (['0', '1', '2', '3', '4', '5', '6', '7', '8', '9'] : List Char) ∨
        c ∈ acc := by
  induction fuel with
  | zero => intro n acc c h; right; exact h
  | succ fuel ih =>
    intro n acc c h
    unfold natDigitsAux at h
    by_cases hn : n < 10
    · rw [if_pos hn] at h
      rcases List.mem_cons.1 h with he | h2
      · left; rw [he]; exact digitChar_mem n
      · right; exact h2
    · rw [if_neg hn] at h
      rcases ih (n / 10) _ c h with h2 | h2
      · left; exact h2
      · rcases List.mem_cons.1 h2 with he | h3
        · left; rw [he]; exact digitChar_mem n
        · right; exact h3

/-- All characters of a zero-padded number are decimal digits. -/
theorem padNum_chars (w n : Nat) :
    ∀ c ∈ (padNum w n).data,
      c ∈ (['0', '1', '2', '3', '4', '5', '6', '7', '8', '9'] : List Char) := by
  intro c hc
  simp only [padNum] at hc
  rcases List.mem_append.1 hc with h | h
  · rw [List.eq_of_mem_replicate h]; decide
  · rcases natDigitsAux_mem (n + 1) n [] c h with h2 | h2
    · exact h2
    · cases h2

/-- All characters of an integer's decimal representation are digits or a
leading minus sign. -/
theorem intRepr_chars (n : Int) :
    ∀ c ∈ (intRepr n).data,
      c ∈ (['-', '0', '1', '2', '3', '4', '5', '6', '7', '8', '9'] :
        List Char) := by
  intro c hc
  cases n with
  | ofNat m =>
    simp only [intRepr, natRepr] at hc
    rcases natDigitsAux_mem (m + 1) m [] c hc with h2 | h2
    · exact List.mem_cons_of_mem _ h2
    · cases h2
  | negSucc m =>
    simp only [intRepr, natRepr, String.data_append] at hc
    rcases List.mem_append.1 hc with h | h
    · have : c = '-' := by simpa using h
      rw [this]; decide
    · rcases natDigitsAux_mem (m + 2) (m + 1) [] c h with h2 | h2
      · exact List.mem_cons_of_mem _ h2
      · cases h2

/-- One escaped character never contains a raw newline. -/
theorem jsonEscapeChar_ne_nl (c : Char) : '\n' ∉ jsonEscapeChar c := by
  intro hmem
  unfold jsonEscapeChar at hmem
  split_ifs at hmem with h1 h2 h3 h4 h5 h6 h7 h8
  · exact absurd hmem (by decide)
  · exact absurd hmem (by decide)
  · exact absurd hmem (by decide)
  · exact absurd hmem (by decide)
  · exact absurd hmem (by decide)
  · exact absurd hmem (by decide)
  · exact absurd hmem (by decide)
  · simp only [List.mem_cons, List.not_mem_nil, or_false] at hmem
    rcases hmem with h | h | h | h | h | h
    · exact absurd h (by decide)
    · exact absurd h (by decide)
    · exact absurd h (by decide)
    · exact absurd h (by decide)
    · exact hexDigit_ne_nl _ h.symm
    · exact hexDigit_ne_nl _ h.symm
  · have hc : '\n' = c := by simpa using hmem
    rw [← hc] at h8
    exact h8 (by decide)

/-- An escaped string never contains a raw newline. -/
theorem jsonEscape_ne_nl (s : String) : '\n' ∉ (jsonEscape s).data := by
  intro h
  simp only [jsonEscape] at h
  rcases List.mem_flatten.1 h with ⟨l, hl, hc⟩
  rcases List.mem_map.1 hl with ⟨c, _, he⟩
  rw [← he] at hc
  exact jsonEscapeChar_ne_nl c hc

/-- Newlines are absent from an append iff absent from both parts. -/
theorem ne_nl_append (s t : String) (hs : '\n' ∉ s.data)
    (ht : '\n' ∉ t.data) : '\n' ∉ (s ++ t).data := by
  rw [String.data_append]
  intro h
  rcases List.mem_append.1 h with h2 | h2
  · exact hs h2
  · exact ht h2

/-- A JSON string literal never contains a raw newline. -/
theorem quoteStr_ne_nl (s : String) : '\n' ∉ (quoteStr s).data := by
  unfold quoteStr
  exact ne_nl_append _ _ (ne_nl_append _ _ (by decide) (jsonEscape_ne_nl s))
    (by decide)

/-- A serialized primitive value never contains a raw newline. -/
theorem dumpsValue_ok_ne_nl (v : PyValue) (s : String)
    (h : dumpsValue v = Except.ok s) : '\n' ∉ s.data := by
  cases v with
  | str s0 =>
    have : s = quoteStr s0 := by simpa [dumpsValue] using h.symm
    rw [this]; exact quoteStr_ne_nl s0
  | int n =>
    have : s = intRepr n := by simpa [dumpsValue] using h.symm
    rw [this]
    intro hc
    have := intRepr_chars n '\n' hc
    exact absurd this (by decide)
  | bool b =>
    have : s = if b then "true" else "false" := by
      simpa [dumpsValue] using h.symm
    rw [this]
    cases b <;> decide
  | obj => cases h

/-- Joining newline-free items with a newline-free separator stays
newline-free. -/
theorem joinSep_ne_nl (sep : String) (hsep : '\n' ∉ sep.data) :
    ∀ items, (∀ i ∈ items, '\n' ∉ i.data) →
      '\n' ∉ (joinSep sep items).data := by
  intro items
  induction items with
  | nil =>
    intro _
    show '\n' ∉ ("" : String).data
    decide
  | cons x rest ih =>
    intro hall
    cases rest with
    | nil => exact hall x (List.mem_singleton.2 rfl)
    | cons y rest2 =>
      have hx : '\n' ∉ x.data := hall x (List.mem_cons_self _ _)
      have hr : ∀ i ∈ y :: rest2, '\n' ∉ i.data :=
        fun i hi => hall i (List.mem_cons_of_mem _ hi)
      exact ne_nl_append _ _ (ne_nl_append _ _ hx hsep) (ih hr)

/-- Serializing a record of primitives succeeds with newline-free items. -/
theorem dumpsPairs_ok (record : List (String × PyValue))
    (hprim : ∀ p ∈ record, ¬(p.2 = PyValue.obj)) :
    ∃ items, dumpsPairs record = Except.ok items ∧
      ∀ i ∈ items, '\n' ∉ i.data := by
  induction record with
  | nil => exact ⟨[], rfl, by simp⟩
  | cons kv rest ih =>
    have hv : ∃ s, dumpsValue kv.2 = Except.ok s := by
      cases hkv : kv.2 with
      | str s0 => exact ⟨quoteStr s0, rfl⟩
      | int n => exact ⟨intRepr n, rfl⟩
      | bool b => exact ⟨if b then "true" else "false", rfl⟩
      | obj => exact absurd hkv (hprim kv (List.mem_cons_self _ _))
    obtain ⟨s, hs⟩ := hv
    obtain ⟨items, hi, hin⟩ :=
      ih (fun p hp => hprim p (List.mem_cons_of_mem _ hp))
    refine ⟨(quoteStr kv.1 ++ ": " ++ s) :: items, ?_, ?_⟩
    · simp [dumpsPairs, hs, hi]
    · intro i hi2
      rcases List.mem_cons.1 hi2 with he | h2
      · rw [he]
        exact ne_nl_append _ _
          (ne_nl_append _ _ (quoteStr_ne_nl kv.1) (by decide))
          (dumpsValue_ok_ne_nl kv.2 s hs)
      · exact hin i h2

/-- `json.dumps` of a record of primitives succeeds and its output has no
raw newline. -/
theorem dumps_ok (record : List (String × PyValue))
    (hprim : ∀ p ∈ record, ¬(p.2 = PyValue.obj)) :
    ∃ line, dumps record = Except.ok line ∧ '\n' ∉ line.data := by
  obtain ⟨items, hi, hin⟩ := dumpsPairs_ok record hprim
  refine ⟨lbrace ++ joinSep ", " items ++ rbrace, by simp [dumps, hi], ?_⟩
  exact ne_nl_append _ _
    (ne_nl_append _ _ (by decide) (joinSep_ne_nl ", " (by decide) items hin))
    (by decide)

/-- Claim C7: a log call whose message is a string and whose extras are all
primitives writes exactly one chunk: one line of serialized JSON terminated
by a single newline — a count of exactly one newline character, sitting at
the very end — even when the message or the extra strings contain newlines
themselves; nothing is buffered or split. -/
theorem C7_emit_single_line (now : UTCTime) (sid : StreamId)
    (level msg : String) (extras : List (String × PyValue)) (st : Streams)
    (hprim : ∀ kv ∈ extras, ¬(kv.2 = PyValue.obj)) :
    ∃ chunk,
      _emit now sid level msg extras st = (writeChunk st sid chunk, none) ∧
      chunk.data.count '\n' = 1 ∧
      chunk.data.getLast? = some '\n' := by
  have hrec : ∀ p ∈ buildRecord level msg (isoformat now) extras,
      ¬(p.2 = PyValue.obj) := by
    intro p hp habs
    rcases foldl_update_values extras _ p hp with ⟨q, hq, he⟩ | ⟨q, hq, he⟩
    · have hq2 : q.2 = PyValue.obj := by rw [← he, habs]
      simp only [List.mem_cons, List.not_mem_nil, or_false] at hq
      rcases hq with he2 | he2 | he2 <;> rw [he2] at hq2 <;> simp at hq2
    · exact hprim q hq (by rw [← he, habs])
  obtain ⟨line, hl, hln⟩ := dumps_ok _ hrec
  refine ⟨line ++ "\n", by simp [_emit, hl], ?_, ?_⟩
  · rw [String.data_append, List.count_append, List.count_eq_zero.2 hln]
    decide
  · rw [String.data_append]
    have : ("\n" : String).data = ['\n'] := by decide
    rw [this]
    exact List.getLast?_concat _

/-- Witness for C7: a concrete `info` call whose message contains a newline
still writes a single newline-terminated chunk. -/
theorem C7_emit_single_line_witness :
    ∃ chunk,
      _emit ⟨2024, 1, 1, 0, 0, 0, 1⟩ StreamId.out "info" "a\nb"
          [("ok", PyValue.bool true)] ⟨[], []⟩ =
        (writeChunk ⟨[], []⟩ StreamId.out chunk, none) ∧
      chunk.data.count '\n' = 1 ∧
      chunk.data.getLast? = some '\n' :=
  C7_emit_single_line ⟨2024, 1, 1, 0, 0, 0, 1⟩ StreamId.out "info" "a\nb"
    [("ok", PyValue.bool true)] ⟨[], []⟩ (by decide)

/-- Zero-padded numbers never contain a dot. -/
theorem padNum_no_dot (w n : Nat) : '.' ∉ (padNum w n).data := by
  intro h
  have := padNum_chars w n '.' h
  exact absurd this (by decide)

/-- Counterexample to claim C8 as stated: when `datetime.now` lands on a
whole second (`microsecond = 0`), `isoformat()` omits the fractional part,
so the emitted `ts` has no sub-second component at all. -/
theorem C8_counterexample :
    assocLookup "ts"
        (buildRecord "info" "m" (isoformat ⟨2024, 1, 1, 0, 0, 0, 0⟩) []) =
      some (PyValue.str "2024-01-01T00:00:00+00:00") ∧
    '.' ∉ ("2024-01-01T00:00:00+00:00" : String).data := by
  refine ⟨by decide, by decide⟩

/-- Claim C8 (amended): the `ts` field of a record is exactly the
`isoformat` of the UTC time taken synchronously at the call (whenever the
extras do not override `ts`), and that string carries a fractional-seconds
component exactly when the microsecond value is nonzero — not always, as
the unamended claim asserts. -/
theorem C8_ts_call_time (t : UTCTime) (level msg : String)
    (extras : List (String × PyValue))
    (hts : "ts" ∉ extras.map Prod.fst) :
    assocLookup "ts" (buildRecord level msg (isoformat t) extras) =
      some (PyValue.str (isoformat t)) ∧
    ('.' ∈ (isoformat t).data ↔ ¬(t.microsecond = 0)) := by
  constructor
  · unfold buildRecord
    rw [foldl_update_not_mem extras _ "ts" hts]
    simp [assocLookup]
  · have h1 : '.' ∉ ("-" : String).data := by decide
    have h2 : '.' ∉ ("T" : String).data := by decide
    have h3 : '.' ∉ (":" : String).data := by decide
    have h4 : '.' ∉ ("+00:00" : String).data := by decide
    have h5 : '.' ∈ ("." : String).data := by decide
    by_cases hm : t.microsecond = 0 <;>
      simp [isoformat, hm, String.data_append, List.mem_append,
        padNum_no_dot, h1, h2, h3, h4, h5]

/-- Witness for C8 (amended): at a concrete time with one microsecond the
`ts` field carries a fraction; the claim applies with no extras. -/
theorem C8_ts_call_time_witness :
    assocLookup "ts"
        (buildRecord "info" "m" (isoformat ⟨2024, 1, 1, 0, 0, 0, 1⟩) []) =
      some (PyValue.str (isoformat ⟨2024, 1, 1, 0, 0, 0, 1⟩)) ∧
    ('.' ∈ (isoformat ⟨2024, 1, 1, 0, 0, 0, 1⟩).data ↔ ¬((1 : Nat) = 0)) :=
  C8_ts_call_time ⟨2024, 1, 1, 0, 0, 0, 1⟩ "info" "m" [] (by simp)

/-- A record containing a non-serializable value makes `dumpsPairs` fail. -/
theorem dumpsPairs_err (record : List (String × PyValue))
    (h : ∃ p ∈ record, p.2 = PyValue.obj) :
    ∃ e, dumpsPairs record = Except.error e := by
  induction record with
  | nil => obtain ⟨p, hp, _⟩ := h; cases hp
  | cons kv rest ih =>
    by_cases hv : kv.2 = PyValue.obj
    · exact ⟨"TypeError: Object is not JSON serializable",
        by simp [dumpsPairs, hv, dumpsValue]⟩
    · obtain ⟨p, hp, hpv⟩ := h
      rcases List.mem_cons.1 hp with he | hp2
      · exact absurd (by rw [← he]; exact hpv) hv
      · obtain ⟨e, he⟩ := ih ⟨p, hp2, hpv⟩
        refine ⟨e, ?_⟩
        cases hkv : kv.2 with
        | obj => exact absurd hkv hv
        | str s0 => simp [dumpsPairs, hkv, dumpsValue, he]
        | int n => simp [dumpsPairs, hkv, dumpsValue, he]
        | bool b => simp [dumpsPairs, hkv, dumpsValue, he]

/-- Claim C10: when any extra value is not JSON-serializable, the call
fails during serialization before anything is written: the result carries
the error and the streams are exactly the ones passed in — no partial
record is ever emitted.  (Keys are pairwise distinct, as Python kwargs
are.) -/
theorem C10_nonserializable_no_write (now : UTCTime) (sid : StreamId)
    (level msg : String) (extras : List (String × PyValue)) (st : Streams)
    (hnd : (extras.map Prod.fst).Nodup)
    (hobj : ∃ kv ∈ extras, kv.2 = PyValue.obj) :
    ∃ e, _emit now sid level msg extras st = (st, some e) := by
  obtain ⟨kv, hkv, hv⟩ := hobj
  have hlook : assocLookup kv.1
      (buildRecord level msg (isoformat now) extras) = some kv.2 :=
    foldl_update_mem extras _ kv.1 kv.2 hnd hkv
  have hmem := assocLookup_mem _ _ _ hlook
  obtain ⟨e, he⟩ := dumpsPairs_err
    (buildRecord level msg (isoformat now) extras) ⟨(kv.1, kv.2), hmem, hv⟩
  exact ⟨e, by simp [_emit, dumps, he]⟩

/-- Witness for C10: a concrete call with a non-serializable extra returns
the untouched streams together with an error. -/
theorem C10_nonserializable_no_write_witness :
    ∃ e, _emit ⟨2024, 1, 1, 0, 0, 0, 1⟩ StreamId.out "info" "m"
        [("x", PyValue.obj)] ⟨[], []⟩ = (⟨[], []⟩, some e) :=
  C10_nonserializable_no_write ⟨2024, 1, 1, 0, 0, 0, 1⟩ StreamId.out "info"
    "m" [("x", PyValue.obj)] ⟨[], []⟩ (by decide)
    ⟨("x", PyValue.obj), by simp, rfl⟩

/-- Claim C1: `workspace_path` follows the priority order: a non-empty
override value `AEGIS_WORKSPACE_PATH` is returned exactly, regardless of
filesystem state; when the override is unset or empty, the result is
`/workspace` when that path is a directory and `./workspace` otherwise. -/
theorem C1_workspace_path_priority (environ : Env) (isdir : String → Bool) :
    (∀ s, environ "AEGIS_WORKSPACE_PATH" = some s → s ≠ "" →
      workspace_path environ isdir = s) ∧
    ((environ "AEGIS_WORKSPACE_PATH" = none ∨
      environ "AEGIS_WORKSPACE_PATH" = some "") →
      workspace_path environ isdir =
        if isdir "/workspace" then "/workspace" else "./workspace") := by
  constructor
  · intro s hs hne
    simp [workspace_path, hs, hne]
  · rintro (h | h) <;> simp [workspace_path, h]

/-- Witness for C1: a concrete override value wins over the filesystem, and
with the override unset and `/workspace` absent the fallback is returned. -/
theorem C1_workspace_path_priority_witness :
    workspace_path
      (fun n => if n = "AEGIS_WORKSPACE_PATH" then some "/tmp/run1" else none)
      (fun _ => false) = "/tmp/run1" ∧
    workspace_path (fun _ => none) (fun _ => false) = "./workspace" := by
  constructor
  · exact (C1_workspace_path_priority _ _).1 "/tmp/run1" (by simp) (by decide)
  · simpa using
      (C1_workspace_path_priority (fun _ => none) (fun _ => false)).2 (Or.inl rfl)

/-- Claim C3: `require_secret` returns the environment value when set and
otherwise fails with the `AegisSecretError` message, which contains the
literal secret name and the remediation text `aegis secret set`; the error
is the function result, never swallowed. -/
theorem C3_require_secret_spec (environ : Env) (name : String) :
    (∀ v, environ name = some v → require_secret environ name = Except.ok v) ∧
    (environ name = none →
      require_secret environ name = Except.error (secretErrMsg name) ∧
      (∃ pre post, secretErrMsg name = pre ++ name ++ post) ∧
      (∃ pre post, secretErrMsg name = pre ++ "aegis secret set" ++ post)) := by
  refine ⟨fun v hv => by simp [require_secret, hv], fun h => ⟨by simp [require_secret, h], ?_, ?_⟩⟩
  · exact ⟨"Secret " ++ sq,
      sq ++ " not available. " ++ "Ensure it is set via " ++ sq ++
        "aegis secret set" ++ sq ++ " and the task/app references it.",
      by simp [secretErrMsg, String.append_assoc]⟩
  · exact ⟨"Secret " ++ sq ++ name ++ sq ++ " not available. " ++
        "Ensure it is set via " ++ sq,
      sq ++ " and the task/app references it.",
      by simp [secretErrMsg, String.append_assoc]⟩

/-- Witness for C3: a set secret is returned; an unset one yields the error
message containing the literal name. -/
theorem C3_require_secret_spec_witness :
    require_secret (fun n => if n = "DB_PASSWORD" then some "hunter2" else none)
      "DB_PASSWORD" = Except.ok "hunter2" ∧
    require_secret (fun _ => none) "MISSING_SECRET" =
      Except.error (secretErrMsg "MISSING_SECRET") := by
  constructor
  · exact (C3_require_secret_spec _ "DB_PASSWORD").1 "hunter2" (by simp)
  · exact ((C3_require_secret_spec (fun _ => none) "MISSING_SECRET").2 rfl).1

/-- Claim C6: `get_secret` is total and returns exactly the environment value
when the variable is set — including the empty string — and `none` when it is
unset, so absence is distinguishable from the empty string. -/
theorem C6_get_secret_spec (environ : Env) (name : String) :
    (∀ v, environ name = some v → get_secret environ name = some v) ∧
    (environ name = none → get_secret environ name = none) ∧
    (some "" ≠ (none : Option String)) :=
  ⟨fun _ hv => by simpa [get_secret] using hv,
   fun h => by simpa [get_secret] using h,
   by simp⟩

/-- Witness for C6: a variable set to the empty string yields `some ""`,
an unset variable yields `none`. -/
theorem C6_get_secret_spec_witness :
    get_secret (fun n => if n = "GREETING" then some "" else none) "GREETING" =
      some "" ∧
    get_secret (fun _ => none) "GREETING" = none := by
  constructor
  · exact (C6_get_secret_spec _ "GREETING").1 "" (by simp)
  · exact (C6_get_secret_spec (fun _ => none) "GREETING").2.1 rfl

/-- Claim C9: a secret set to the empty string counts as present:
`require_secret` returns `""` and does not fail — unlike the workspace
override variable, where an empty string is treated as unset and resolution
falls through to the filesystem probe. -/
theorem C9_require_secret_empty_present (environ : Env) (name : String)
    (isdir : String → Bool)
    (hsec : environ name = some "")
    (hws : environ "AEGIS_WORKSPACE_PATH" = some "") :
    require_secret environ name = Except.ok "" ∧
    workspace_path environ isdir =
      (if isdir "/workspace" then "/workspace" else "./workspace") :=
  ⟨by simp [require_secret, hsec], by simp [workspace_path, hws]⟩

/-- Witness for C9: with every variable set to the empty string, the secret
is returned as present while the workspace override falls through. -/
theorem C9_require_secret_empty_present_witness :
    require_secret (fun _ => some "") "GREETING" = Except.ok "" ∧
    workspace_path (fun _ => some "") (fun _ => false) =
      (if (fun (_ : String) => false) "/workspace" then "/workspace"
       else "./workspace") :=
  C9_require_secret_empty_present (fun _ => some "") "GREETING" (fun _ => false)
    rfl rfl

end AegisVM
